import Mathlib

/-!
# Verification of the JSON-RPC batch-multiplexing core

Shallow embedding of `src/jsonrpsee/src/raw/server/batches.rs`
(`BatchesState`, `BatchesEvent`, `BatchesElem`, `BatchesElemId`) together
with the per-message call tracker (`batch::BatchState`), whose source file
is not part of this repository and is therefore modelled from the spec
(§3 "CallTracker" and §4.1).

Machine integers are modelled as `Nat` with explicit reduction modulo
`2 ^ 64` where the Rust code wraps (`u64::wrapping_add`).
-/

namespace Jsonrpsee

/-- Size of the `u64` ticket space: tickets live in `[0, 2^64)`. -/
def u64Size : Nat := 2 ^ 64

/-- JSON values are opaque to this core; a stand-in type suffices. -/
inductive JsonValue where
  | val : String → JsonValue
deriving DecidableEq

/-- Request parameters (`common::Params`); opaque to this core. -/
inductive Params where
  | none : Params
  | val : String → Params
deriving DecidableEq

/-- Client-supplied request id (`common::Id`). -/
inductive RequestId where
  | num : Nat → RequestId
  | str : String → RequestId
  | null : RequestId
deriving DecidableEq

/-- A JSON-RPC error object (`common::Error`), opaque to this core. -/
inductive RpcError where
  | mk : Int → String → RpcError
deriving DecidableEq

/-- Result committed for one request: success value or error
(`Result<common::JsonValue, common::Error>`). -/
inductive RpcResult where
  | ok : JsonValue → RpcResult
  | err : RpcError → RpcResult
deriving DecidableEq

/-- A notification (`common::Notification`): a call without an id. -/
structure Notification where
  method : String
  params : Params
deriving DecidableEq

/-- A method call (`common::MethodCall`): a call with a client-supplied id. -/
structure MethodCall where
  id : RequestId
  method : String
  params : Params
deriving DecidableEq

/-- One call of a client message (`common::Call`). -/
inductive Call where
  | notification : Notification → Call
  | methodCall : MethodCall → Call
deriving DecidableEq

/-- A decoded client message (`common::Request`): one call or a batch. -/
inductive Request where
  | single : Call → Request
  | batch : List Call → Request
deriving DecidableEq

/-- One entry of a JSON-RPC response (`common::Output`). -/
inductive Output where
  | success : JsonValue → RequestId → Output
  | failure : RpcError → RequestId → Output
deriving DecidableEq

/-- Builds the output for one answered request (`common::Output::from`). -/
def Output.from_result (r : RpcResult) (id : RequestId) : Output :=
  match r with
  | .ok v => .success v id
  | .err e => .failure e id

/-- The client id carried by an output. -/
def Output.out_id : Output → RequestId
  | .success _ id => id
  | .failure _ id => id

/-- Outbound response (`common::Response`): single output or a batch. -/
inductive Response where
  | single : Output → Response
  | batch : List Output → Response
deriving DecidableEq

/-- The client ids listed by a response, in order. -/
def Response.output_ids : Response → List RequestId
  | .single o => [o.out_id]
  | .batch os => os.map Output.out_id

/-- Modelled from the spec: one tracked call of the call tracker
(`batch::BatchState`, not under `src/`). Per spec §3, each call is
permanently tagged Notification or Request, and a Request carries a
one-shot result slot, initially empty. -/
inductive TrackedCall where
  | notif : Notification → TrackedCall
  | req : MethodCall → Option RpcResult → TrackedCall
deriving DecidableEq

/-- Returns `true` for notifications and for requests whose slot is filled. -/
def TrackedCall.answered : TrackedCall → Bool
  | .notif _ => true
  | .req _ s => s.isSome

/-- Returns `true` exactly for notifications. -/
def TrackedCall.isNotif : TrackedCall → Bool
  | .notif _ => true
  | .req _ _ => false

/-- The response entry contributed by a tracked call: notifications
contribute nothing, an answered request contributes its output. -/
def TrackedCall.output : TrackedCall → Option Output
  | .notif _ => none
  | .req c s => s.map (fun r => Output.from_result r c.id)

/-- Modelled from the spec: the call tracker of one client message
(`batch::BatchState`, not under `src/`). Per spec §3 it holds the ordered
list of calls and a monotone cursor over not-yet-yielded calls;
`is_batch` records whether the message was an array (spec §4.1: the
single-call case produces a single `Response`, a list produces a list). -/
structure BatchState where
  is_batch : Bool
  calls : List TrackedCall
  cursor : Nat
deriving DecidableEq

/-- Classifies one decoded call (spec §4.1: tag each element as
Notification or Request, in original order; request slots start empty). -/
def trackCall : Call → TrackedCall
  | .notification n => .notif n
  | .methodCall c => .req c none

/-- Modelled from the spec (§4.1): builds the call tracker from a decoded
client message (`batch::BatchState::from_request`). -/
def BatchState.from_request : Request → BatchState
  | .single c => ⟨false, [trackCall c], 0⟩
  | .batch cs => ⟨true, cs.map trackCall, 0⟩

/-- One step handed out by the tracker (`batch::BatchInc`): the next
unyielded call, a notification by value or a request with its local
index. -/
inductive BatchInc where
  | notification : Notification → BatchInc
  | request : Nat → MethodCall → BatchInc
deriving DecidableEq

/-- Modelled from the spec (§4.1 `advance()`): returns the next
not-yet-yielded call and advances the cursor; returns nothing once the
cursor passes the end (`batch::BatchState::next`). -/
def BatchState.next (b : BatchState) : Option BatchInc × BatchState :=
  match b.calls[b.cursor]? with
  | Option.none => (none, b)
  | some (.notif n) => (some (.notification n), { b with cursor := b.cursor + 1 })
  | some (.req c _) => (some (.request b.cursor c), { b with cursor := b.cursor + 1 })

/-- Modelled from the spec (§4.1): true iff the cursor is exhausted and no
request slot is empty (`batch::BatchState::is_ready_to_respond`). -/
def BatchState.is_ready_to_respond (b : BatchState) : Bool :=
  b.calls.length ≤ b.cursor && b.calls.all TrackedCall.answered

/-- Modelled from the spec (§4.2): re-resolves a previously issued local
request index (`batch::BatchState::request_by_id`). Ids are only issued
for yielded requests, so only indices below the cursor resolve; returns
nothing if the index does not address a request or the slot is already
filled. -/
def BatchState.request_by_id (b : BatchState) (i : Nat) : Option MethodCall :=
  if i < b.cursor then
    match b.calls[i]? with
    | some (.req c Option.none) => some c
    | _ => none
  else none

/-- Modelled from the spec (§4.1 `fill`): writes the result into the
addressed request's one-shot slot; fails if the index does not address a
resolvable request or the slot is already filled
(`batch::BatchElem::set_response`). -/
def BatchState.set_response (b : BatchState) (i : Nat) (r : RpcResult) :
    Option BatchState :=
  if i < b.cursor then
    match b.calls[i]? with
    | some (.req c Option.none) =>
      some { b with calls := b.calls.set i (.req c (some r)) }
    | _ => none
  else none

/-- The outputs recorded so far, in original call order; notifications
contribute no entry. -/
def BatchState.outputs (b : BatchState) : List Output :=
  b.calls.filterMap TrackedCall.output

/-- Modelled from the spec (§4.1 `finish`): the response payload of a
finished tracker — nothing for a message with zero requests, a single
output for a single-call message, the ordered outputs otherwise. -/
def BatchState.response_payload (b : BatchState) : Option Response :=
  match b.is_batch, b.outputs with
  | _, [] => none
  | true, outs => some (.batch outs)
  | false, [o] => some (.single o)
  | false, outs => some (.batch outs)

/-- Modelled from the spec (§4.1): consumes the tracker into its response;
valid (outer `some`) only when `is_ready_to_respond`
(`batch::BatchState::into_response`, which returns `Result<Option<_>,_>`). -/
def BatchState.into_response (b : BatchState) : Option (Option Response) :=
  if b.is_ready_to_respond then some b.response_payload else none

/-- The client id of a tracked call when it is a request. -/
def TrackedCall.req_id : TrackedCall → Option RequestId
  | .req c _ => some c.id
  | .notif _ => none

/-- The client ids of the tracked requests, in original call order. -/
def BatchState.tracked_ids (b : BatchState) : List RequestId :=
  b.calls.filterMap TrackedCall.req_id

/-- The client ids of a message's requests, in original order. -/
def Request.request_ids : Request → List RequestId
  | .single (.methodCall c) => [c.id]
  | .single (.notification _) => []
  | .batch cs =>
    cs.filterMap fun c =>
      match c with
      | .methodCall mc => some mc.id
      | .notification _ => none

/-- Identifier of a request within a `BatchesState`
(`BatchesElemId`: ticket of the batch plus local index). -/
structure BatchesElemId where
  outer : Nat
  inner : Nat
deriving DecidableEq

/-- Collection of multiple batches (`BatchesState<T>`). The hash map
`batches` (keyed by `u64` tickets, fixed-seed FNV hasher) is embedded as
an association list; `next_batch_id` is the `u64` ticket counter. -/
structure BatchesState (T : Type) where
  next_batch_id : Nat
  batches : List (Nat × BatchState × T)
deriving DecidableEq

/-- Event generated by `next_event` (`BatchesEvent`). The Rust variants
hand out `&mut T` (notification, request) or `T` by value (ready-to-send);
the embedding carries the value in each case. A request event carries the
data exposed by the `BatchesElem` handle. -/
inductive BatchesEvent (T : Type) where
  | notification : Notification → T → BatchesEvent T
  | request : BatchesElemId → MethodCall → T → BatchesEvent T
  | readyToSend : Response → T → BatchesEvent T
deriving DecidableEq

/-- Creates a new empty `BatchesState` (`BatchesState::new`; the initial
capacity of the map is irrelevant to behaviour). -/
def BatchesState.new {T : Type} : BatchesState T := ⟨0, []⟩

/-- Whether the key `k` is occupied (`HashMap::entry` finding `Occupied`). -/
def hasKey {T : Type} (l : List (Nat × BatchState × T)) (k : Nat) : Bool :=
  l.any fun e => e.1 == k

/-- Ticket-probing loop of `inject`, with explicit fuel: take the current
counter value, advance the counter with wraparound, retry while the ticket
is occupied, insert at the first vacant ticket. The periodic
`shrink_to_fit` is a capacity no-op with no observable effect. -/
def BatchesState.injectAux {T : Type} (fuel : Nat) (s : BatchesState T)
    (b : BatchState) (u : T) : Option (BatchesState T) :=
  match fuel with
  | 0 => none
  | fuel + 1 =>
    let id := s.next_batch_id
    let s' : BatchesState T := { s with next_batch_id := (id + 1) % u64Size }
    if hasKey s.batches id then
      BatchesState.injectAux fuel s' b u
    else
      some { s' with batches := s.batches ++ [(id, b, u)] }

/-- Injects a newly-received batch (`BatchesState::inject`). The Rust loop
is unbounded; fuel `2 ^ 64` covers every probe of the ticket space, so
`none` models the (unreachable) case of all `2 ^ 64` tickets being live. -/
def BatchesState.inject {T : Type} (s : BatchesState T) (r : Request) (u : T) :
    Option (BatchesState T) :=
  BatchesState.injectAux u64Size s (BatchState.from_request r) u

/-- The scan of `next_event` over the open batches: yields the first
notification, request, or ready response; a batch that is ready with no
response payload is retired silently and the scan continues. -/
def nextEventAux {T : Type} (l : List (Nat × BatchState × T)) :
    Option (BatchesEvent T) × List (Nat × BatchState × T) :=
  match l with
  | [] => (none, [])
  | (id, b, u) :: rest =>
    match BatchState.next b with
    | (some (.notification n), b') =>
      (some (.notification n u), (id, b', u) :: rest)
    | (some (.request i c), b') =>
      (some (.request ⟨id, i⟩ c u), (id, b', u) :: rest)
    | (Option.none, _) =>
      if b.is_ready_to_respond then
        match b.response_payload with
        | some resp => (some (.readyToSend resp u), rest)
        | Option.none => nextEventAux rest
      else
        ((nextEventAux rest).1, (id, b, u) :: (nextEventAux rest).2)

/-- Processes one step (`BatchesState::next_event`): the event, if any,
and the updated registry. -/
def BatchesState.next_event {T : Type} (s : BatchesState T) :
    Option (BatchesEvent T) × BatchesState T :=
  ((nextEventAux s.batches).1, { s with batches := (nextEventAux s.batches).2 })

/-- First entry stored under key `k` (`HashMap::get_mut`). -/
def findBatch {T : Type} (l : List (Nat × BatchState × T)) (k : Nat) :
    Option (BatchState × T) :=
  match l with
  | [] => none
  | (id, b, u) :: rest => if id = k then some (b, u) else findBatch rest k

/-- Returns a previously issued request by its id
(`BatchesState::request_by_id`): the data the returned `BatchesElem`
handle exposes, or `none` if the ticket is gone or the request was
already answered. -/
def BatchesState.request_by_id {T : Type} (s : BatchesState T)
    (id : BatchesElemId) : Option MethodCall :=
  match findBatch s.batches id.outer with
  | some (b, _) => b.request_by_id id.inner
  | none => none

/-- Rewrites the batch stored under key `k` with `f`; fails if the key is
absent or `f` fails. -/
def updateBatch {T : Type} (l : List (Nat × BatchState × T)) (k : Nat)
    (f : BatchState → Option BatchState) :
    Option (List (Nat × BatchState × T)) :=
  match l with
  | [] => none
  | (id, b, u) :: rest =>
    if id = k then (f b).map fun b' => (id, b', u) :: rest
    else (updateBatch rest k f).map fun rest' => (id, b, u) :: rest'

/-- Answering a request: `request_by_id` followed by
`BatchesElem::set_response` on the returned handle. Fails (`none`) exactly
when the id does not resolve, leaving the registry untouched. -/
def BatchesState.answer {T : Type} (s : BatchesState T) (id : BatchesElemId)
    (r : RpcResult) : Option (BatchesState T) :=
  (updateBatch s.batches id.outer fun b => b.set_response id.inner r).map
    fun l => { s with batches := l }

/-- The slot recorded for id `id`: `none` if the id addresses no request,
`some s` with the slot contents otherwise. -/
def BatchesState.slotAt {T : Type} (s : BatchesState T) (id : BatchesElemId) :
    Option (Option RpcResult) :=
  match findBatch s.batches id.outer with
  | some (b, _) =>
    match b.calls[id.inner]? with
    | some (.req _ slot) => some slot
    | _ => none
  | none => none

/-- Applies a sequence of `fill` operations (local index, result) to one
tracker, failing if any single fill fails. -/
def applyFills (b : BatchState) (fills : List (Nat × RpcResult)) :
    Option BatchState :=
  fills.foldl (fun ob f => ob.bind fun x => x.set_response f.1 f.2) (some b)

/-- Runs `next_event` a given number of times, collecting the events. -/
def BatchesState.run_events {T : Type} :
    Nat → BatchesState T → List (Option (BatchesEvent T))
  | 0, _ => []
  | n + 1, s =>
    (s.next_event).1 :: BatchesState.run_events n (s.next_event).2

/-- Events that advance a batch's cursor: notification and request events
(as opposed to `readyToSend`, which retires a batch). -/
def BatchesEvent.advances {T : Type} : BatchesEvent T → Prop
  | .notification _ _ => True
  | .request _ _ _ => True
  | .readyToSend _ _ => False

/-- Every filled request slot of the batch lies below the cursor: only
yielded requests have been answered. -/
def filledBelowCursor (b : BatchState) : Prop :=
  ∀ i c r, b.calls[i]? = some (.req c (some r)) → i < b.cursor

/-- Well-formedness of the registry: live tickets are distinct `u64`
values, the counter is a `u64`, and every batch only has answers below
its cursor. -/
def BatchesState.WF {T : Type} (s : BatchesState T) : Prop :=
  (s.batches.map Prod.fst).Nodup ∧
    (∀ e ∈ s.batches, e.1 < u64Size ∧ filledBelowCursor e.2.1) ∧
    s.next_batch_id < u64Size

/-- Registry states reachable through the public interface: a fresh
registry evolved by `inject`, `next_event` and answering (resolving an id
with `request_by_id` and consuming the handle with `set_response`). -/
inductive Reach {T : Type} : BatchesState T → Prop where
  | new : Reach BatchesState.new
  | inject (s s' : BatchesState T) (r : Request) (u : T) :
      Reach s → s.inject r u = some s' → Reach s'
  | next_event (s : BatchesState T) : Reach s → Reach (s.next_event).2
  | answer (s s' : BatchesState T) (id : BatchesElemId) (r : RpcResult) :
      Reach s → s.answer id r = some s' → Reach s'

/-- Mirrors the panic points of the Rust `next_event` scan: `true` when
the scan would hit `into_response(..).unwrap_or_else(panic)` with an
unready batch, or `batch.request_by_id(id).unwrap()` with an unresolvable
id after `next` yielded a request. -/
def nextEventPanicsAux {T : Type} (l : List (Nat × BatchState × T)) : Bool :=
  match l with
  | [] => false
  | (_, b, _) :: rest =>
    match BatchState.next b with
    | (some (.notification _), _) => false
    | (some (.request i _), b') => !(b'.request_by_id i).isSome
    | (Option.none, _) =>
      if b.is_ready_to_respond then
        match b.into_response with
        | Option.none => true
        | some Option.none => nextEventPanicsAux rest
        | some (some _) => false
      else nextEventPanicsAux rest

/-- Whether a `next_event` call on this registry would hit one of the
internal panic branches. -/
def BatchesState.next_event_panics {T : Type} (s : BatchesState T) : Bool :=
  nextEventPanicsAux s.batches

/-- One operation of the public interface. -/
inductive Op (T : Type) where
  | inject : Request → T → Op T
  | next_event : Op T
  | request_by_id : BatchesElemId → Op T
  | answer : BatchesElemId → RpcResult → Op T

/-- The observable outcome of one operation. -/
inductive OpResult (T : Type) where
  | injected : Bool → OpResult T
  | event : Option (BatchesEvent T) → OpResult T
  | found : Option MethodCall → OpResult T
  | answered : Bool → OpResult T

/-- Executes one operation, returning its observable outcome and the new
registry state. -/
def BatchesState.step {T : Type} (s : BatchesState T) :
    Op T → OpResult T × BatchesState T
  | .inject r u =>
    match s.inject r u with
    | some s' => (.injected true, s')
    | none => (.injected false, s)
  | .next_event => (.event (s.next_event).1, (s.next_event).2)
  | .request_by_id id => (.found (s.request_by_id id), s)
  | .answer id r =>
    match s.answer id r with
    | some s' => (.answered true, s')
    | none => (.answered false, s)

/-- Runs an operation sequence, collecting the observable outcomes. -/
def BatchesState.run {T : Type} (s : BatchesState T) :
    List (Op T) → List (OpResult T)
  | [] => []
  | op :: ops => (s.step op).1 :: BatchesState.run (s.step op).2 ops

/-- The batch still has a not-yet-yielded call. -/
abbrev BatchState.has_unyielded (b : BatchState) : Prop :=
  b.cursor < b.calls.length

/-- The batch is ready to respond and its response payload is an actual
response (not the silent no-payload case). -/
abbrev BatchState.ready_with_output (b : BatchState) : Prop :=
  b.is_ready_to_respond = true ∧ b.response_payload.isSome

theorem nextEventAux_none_iff {T : Type} (l : List (Nat × BatchState × T)) :
    (nextEventAux l).1 = none ↔
      ∀ e ∈ l, ¬ e.2.1.has_unyielded ∧ ¬ e.2.1.ready_with_output := by
  induction l with
  | nil => simp [nextEventAux]
  | cons e rest ih =>
    obtain ⟨id, b, u⟩ := e
    cases hc : b.calls[b.cursor]? with
    | some tc =>
      have hlt : b.cursor < b.calls.length := by
        by_contra h
        push_neg at h
        rw [List.getElem?_eq_none h] at hc
        cases hc
      cases tc <;>
        simp [nextEventAux, BatchState.next, hc, BatchState.has_unyielded, hlt]
    | none =>
      have hge : b.calls.length ≤ b.cursor := List.getElem?_eq_none_iff.mp hc
      have hnu : ¬ b.has_unyielded := by
        simp [BatchState.has_unyielded]
        omega
      cases hr : b.is_ready_to_respond with
      | true =>
        cases hp : b.response_payload with
        | some resp =>
          simp [nextEventAux, BatchState.next, hc, hr, hp,
            BatchState.ready_with_output]
        | none =>
          simp [nextEventAux, BatchState.next, hc, hr, hp, ih, hnu,
            BatchState.ready_with_output]
          exact fun _ => hge
      | false =>
        simp [nextEventAux, BatchState.next, hc, hr, ih, hnu,
          BatchState.ready_with_output]
        exact fun _ => hge

/-- Claim C2: `next_event` returns `None` exactly when no open batch has an
unyielded call and no open batch is ready to respond with an actual
response payload; whenever some batch still has an unyielded call or is
ready to respond with `Some` response, `next_event` returns an event. -/
theorem next_event_none_iff {T : Type} (s : BatchesState T) :
    (s.next_event).1 = none ↔
      ∀ e ∈ s.batches, ¬ e.2.1.has_unyielded ∧ ¬ e.2.1.ready_with_output := by
  simpa [BatchesState.next_event] using nextEventAux_none_iff s.batches

theorem outputs_eq_nil_of_all_notif (b : BatchState)
    (hnr : b.calls.all TrackedCall.isNotif = true) : b.outputs = [] := by
  rw [BatchState.outputs, List.filterMap_eq_nil_iff]
  intro tc htc
  have := (List.all_eq_true.mp hnr) tc htc
  cases tc with
  | notif n => rfl
  | req c s => simp [TrackedCall.isNotif] at this

/-- Claim C3: A message with zero requests (empty array or only
notifications), once its calls are exhausted, is ready to respond with no
payload, and the `next_event` scan retires it silently and continues with
the remaining batches instead of stopping: no `Response` is ever produced
for it. -/
theorem zero_request_batch_silent {T : Type} (id : Nat) (b : BatchState)
    (u : T) (rest : List (Nat × BatchState × T))
    (hnr : b.calls.all TrackedCall.isNotif = true)
    (hex : b.calls.length ≤ b.cursor) :
    b.is_ready_to_respond = true ∧ b.response_payload = none ∧
      nextEventAux ((id, b, u) :: rest) = nextEventAux rest := by
  have hans : b.calls.all TrackedCall.answered = true := by
    rw [List.all_eq_true] at hnr ⊢
    intro tc htc
    have := hnr tc htc
    cases tc with
    | notif n => rfl
    | req c s => simp [TrackedCall.isNotif] at this
  have hready : b.is_ready_to_respond = true := by
    simp [BatchState.is_ready_to_respond, hex, hans]
  have houts : b.outputs = [] := outputs_eq_nil_of_all_notif b hnr
  have hpay : b.response_payload = none := by
    cases hb : b.is_batch <;> simp [BatchState.response_payload, houts, hb]
  refine ⟨hready, hpay, ?_⟩
  simp [nextEventAux, BatchState.next, List.getElem?_eq_none hex, hready, hpay]

theorem zero_request_batch_silent_witness :
    ((BatchState.from_request (.batch [])).calls.all TrackedCall.isNotif = true) ∧
      ((BatchState.from_request (.batch [])).calls.length ≤
        (BatchState.from_request (.batch [])).cursor) ∧
      ((BatchState.from_request (.batch [])).is_ready_to_respond = true ∧
        (BatchState.from_request (.batch [])).response_payload = none ∧
        nextEventAux [(0, BatchState.from_request (.batch []), (5 : Nat))] =
          nextEventAux []) :=
  ⟨by decide, by decide,
    zero_request_batch_silent 0 (BatchState.from_request (.batch [])) 5 []
      (by decide) (by decide)⟩

theorem findBatch_of_updateBatch {T : Type}
    {l l' : List (Nat × BatchState × T)} {k : Nat}
    {f : BatchState → Option BatchState} (h : updateBatch l k f = some l') :
    ∃ b u b', findBatch l k = some (b, u) ∧ f b = some b' ∧
      findBatch l' k = some (b', u) := by
  induction l generalizing l' with
  | nil => simp [updateBatch] at h
  | cons e rest ih =>
    obtain ⟨id, b0, u0⟩ := e
    by_cases hk : id = k
    · subst hk
      simp [updateBatch] at h
      cases hf : f b0 with
      | none => rw [hf] at h; simp at h
      | some b' =>
        rw [hf] at h
        simp at h
        refine ⟨b0, u0, b', ?_, hf, ?_⟩
        · simp [findBatch]
        · rw [← h]; simp [findBatch]
    · simp [updateBatch, hk] at h
      cases hrest : updateBatch rest k f with
      | none => rw [hrest] at h; simp at h
      | some rest' =>
        rw [hrest] at h
        simp at h
        obtain ⟨b, u, b', h1, h2, h3⟩ := ih hrest
        exact ⟨b, u, b', by simp [findBatch, hk, h1], h2, by
          rw [← h]; simp [findBatch, hk, h3]⟩

theorem updateBatch_none_of_findBatch {T : Type}
    {l : List (Nat × BatchState × T)} {k : Nat} {b : BatchState} {u : T}
    {f : BatchState → Option BatchState} (h : findBatch l k = some (b, u))
    (hf : f b = none) : updateBatch l k f = none := by
  induction l with
  | nil => simp [findBatch] at h
  | cons e rest ih =>
    obtain ⟨id, b0, u0⟩ := e
    by_cases hk : id = k
    · subst hk
      simp [findBatch] at h
      obtain ⟨hb, _⟩ := h
      subst hb
      simp [updateBatch, hf]
    · simp [findBatch, hk] at h
      simp [updateBatch, hk, ih h]

theorem set_response_spec {b b' : BatchState} {i : Nat} {r : RpcResult}
    (h : b.set_response i r = some b') :
    i < b.cursor ∧ ∃ c, b.calls[i]? = some (.req c none) ∧
      b' = { b with calls := b.calls.set i (.req c (some r)) } := by
  rw [BatchState.set_response] at h
  split at h
  · rename_i hlt
    refine ⟨hlt, ?_⟩
    split at h
    · rename_i c hc
      exact ⟨c, hc, by cases h; rfl⟩
    · cases h
  · cases h

/-- Claim C4: Answering is one-shot: after `answer` (resolve then
`set_response`) succeeds on an id, the slot holds exactly the recorded
result, `request_by_id` on the same id returns `None`, and a second
`answer` on the same id fails without producing any new state, so the
recorded result and the eventually assembled response are unaffected. -/
theorem answer_one_shot {T : Type} (s s' : BatchesState T)
    (id : BatchesElemId) (r : RpcResult) (h : s.answer id r = some s') :
    s'.slotAt id = some (some r) ∧ s'.request_by_id id = none ∧
      ∀ r', s'.answer id r' = none := by
  rw [BatchesState.answer] at h
  cases hup : updateBatch s.batches id.outer
      (fun b => b.set_response id.inner r) with
  | none => rw [hup] at h; simp at h
  | some l' =>
    rw [hup] at h
    simp at h
    obtain ⟨b, u, b', hfind, hset, hfind'⟩ := findBatch_of_updateBatch hup
    obtain ⟨hlt, c, hc, hb'⟩ := set_response_spec hset
    have hlen : id.inner < b.calls.length := by
      by_contra hx
      push_neg at hx
      rw [List.getElem?_eq_none hx] at hc
      cases hc
    have hc' : b'.calls[id.inner]? = some (.req c (some r)) := by
      rw [hb']
      exact List.getElem?_set_eq_of_lt _ hlen
    have hbatches : s'.batches = l' := by rw [← h]
    have hcur : b'.cursor = b.cursor := by rw [hb']
    refine ⟨?_, ?_, ?_⟩
    · simp [BatchesState.slotAt, hbatches, hfind', hc']
    · simp [BatchesState.request_by_id, hbatches, hfind',
        BatchState.request_by_id, hcur, hlt, hc']
    · intro r'
      have hfail : b'.set_response id.inner r' = none := by
        simp [BatchState.set_response, hcur, hlt, hc']
      rw [BatchesState.answer, hbatches,
        updateBatch_none_of_findBatch hfind' hfail]
      rfl

theorem answer_one_shot_witness :
    ((⟨1, [(0, ⟨false, [.req ⟨.num 123, "foo", .none⟩ none], 1⟩, (9 : Nat))]⟩ :
        BatchesState Nat).answer ⟨0, 0⟩ (.ok (.val "x")) =
      some ⟨1, [(0, ⟨false,
        [.req ⟨.num 123, "foo", .none⟩ (some (.ok (.val "x")))], 1⟩, 9)]⟩) ∧
      ((⟨1, [(0, ⟨false,
          [.req ⟨.num 123, "foo", .none⟩ (some (.ok (.val "x")))], 1⟩, 9)]⟩ :
            BatchesState Nat).slotAt ⟨0, 0⟩ = some (some (.ok (.val "x"))) ∧
        (⟨1, [(0, ⟨false,
          [.req ⟨.num 123, "foo", .none⟩ (some (.ok (.val "x")))], 1⟩, 9)]⟩ :
            BatchesState Nat).request_by_id ⟨0, 0⟩ = none ∧
        ∀ r', (⟨1, [(0, ⟨false,
          [.req ⟨.num 123, "foo", .none⟩ (some (.ok (.val "x")))], 1⟩, 9)]⟩ :
            BatchesState Nat).answer ⟨0, 0⟩ r' = none) :=
  ⟨by decide,
    answer_one_shot
      ⟨1, [(0, ⟨false, [.req ⟨.num 123, "foo", .none⟩ none], 1⟩, 9)]⟩
      ⟨1, [(0, ⟨false,
        [.req ⟨.num 123, "foo", .none⟩ (some (.ok (.val "x")))], 1⟩, 9)]⟩
      ⟨0, 0⟩ (.ok (.val "x")) (by decide)⟩

theorem set_response_of_free {b : BatchState} {i : Nat} {c : MethodCall}
    (r : RpcResult) (h1 : i < b.cursor)
    (h2 : b.calls[i]? = some (.req c none)) :
    b.set_response i r =
      some { b with calls := b.calls.set i (.req c (some r)) } := by
  simp [BatchState.set_response, h1, h2]

theorem set_response_not_free {b : BatchState} {i : Nat} (r : RpcResult)
    (h : ¬(i < b.cursor ∧ ∃ c, b.calls[i]? = some (.req c none))) :
    b.set_response i r = none := by
  rw [BatchState.set_response]
  by_cases h1 : i < b.cursor
  · simp only [if_pos h1]
    cases hcc : b.calls[i]? with
    | none => rfl
    | some tc =>
      cases tc with
      | notif n => rfl
      | req c s =>
        cases s with
        | none => exact absurd ⟨h1, c, hcc⟩ h
        | some r0 => rfl
  · simp [h1]

theorem set_response_comm (b : BatchState) (i j : Nat) (r r' : RpcResult) :
    (b.set_response i r).bind (fun x => x.set_response j r') =
      (b.set_response j r').bind (fun x => x.set_response i r) := by
  by_cases Hi : i < b.cursor ∧ ∃ c, b.calls[i]? = some (.req c none)
  · obtain ⟨hi1, ci, hi2⟩ := Hi
    by_cases Hj : j < b.cursor ∧ ∃ c, b.calls[j]? = some (.req c none)
    · obtain ⟨hj1, cj, hj2⟩ := Hj
      by_cases hij : i = j
      · subst hij
        have hcc : ci = cj := by
          rw [hi2] at hj2
          cases hj2
          rfl
        subst hcc
        have hlen : i < b.calls.length := by
          by_contra hx
          push_neg at hx
          rw [List.getElem?_eq_none hx] at hi2
          cases hi2
        rw [set_response_of_free r hi1 hi2, set_response_of_free r' hi1 hi2]
        simp only [Option.some_bind]
        have e1 : (b.calls.set i (.req ci (some r)))[i]? =
            some (.req ci (some r)) := List.getElem?_set_eq_of_lt _ hlen
        have e2 : (b.calls.set i (.req ci (some r')))[i]? =
            some (.req ci (some r')) := List.getElem?_set_eq_of_lt _ hlen
        rw [set_response_not_free r' (by rintro ⟨_, c, hcx⟩; rw [e1] at hcx; simp at hcx),
          set_response_not_free r (by rintro ⟨_, c, hcx⟩; rw [e2] at hcx; simp at hcx)]
      · rw [set_response_of_free r hi1 hi2, set_response_of_free r' hj1 hj2]
        simp only [Option.some_bind]
        have e1 : (b.calls.set i (.req ci (some r)))[j]? =
            some (.req cj none) := by
          rw [List.getElem?_set_ne hij]
          exact hj2
        have e2 : (b.calls.set j (.req cj (some r')))[i]? =
            some (.req ci none) := by
          rw [List.getElem?_set_ne (Ne.symm hij)]
          exact hi2
        rw [set_response_of_free
            (b := { b with calls := b.calls.set i (.req ci (some r)) }) r' hj1 e1,
          set_response_of_free
            (b := { b with calls := b.calls.set j (.req cj (some r')) }) r hi1 e2]
        simp only [Option.some.injEq, BatchState.mk.injEq, and_true, true_and]
        exact List.set_comm _ _ _ hij
    · rw [set_response_not_free r' Hj, set_response_of_free r hi1 hi2]
      simp only [Option.some_bind, Option.none_bind]
      apply set_response_not_free
      rintro ⟨h1, c, hcx⟩
      by_cases hij : i = j
      · subst hij
        have hlen : i < b.calls.length := by
          by_contra hx
          push_neg at hx
          rw [List.getElem?_eq_none hx] at hi2
          cases hi2
        rw [List.getElem?_set_eq_of_lt _ hlen] at hcx
        simp at hcx
      · rw [List.getElem?_set_ne hij] at hcx
        exact Hj ⟨h1, c, hcx⟩
  · rw [set_response_not_free r Hi]
    simp only [Option.none_bind]
    by_cases Hj : j < b.cursor ∧ ∃ c, b.calls[j]? = some (.req c none)
    · obtain ⟨hj1, cj, hj2⟩ := Hj
      rw [set_response_of_free r' hj1 hj2]
      simp only [Option.some_bind]
      symm
      apply set_response_not_free
      rintro ⟨h1, c, hcx⟩
      by_cases hij : j = i
      · subst hij
        have hlen : j < b.calls.length := by
          by_contra hx
          push_neg at hx
          rw [List.getElem?_eq_none hx] at hj2
          cases hj2
        rw [List.getElem?_set_eq_of_lt _ hlen] at hcx
        simp at hcx
      · rw [List.getElem?_set_ne hij] at hcx
        exact Hi ⟨h1, c, hcx⟩
    · rw [set_response_not_free r' Hj]
      rfl

theorem applyFills_perm (b : BatchState)
    {fills fills' : List (Nat × RpcResult)} (hp : fills.Perm fills') :
    applyFills b fills = applyFills b fills' := by
  unfold applyFills
  refine hp.foldl_eq' ?_ (some b)
  intro x _ y _ z
  cases z with
  | none => rfl
  | some b0 => simpa using set_response_comm b0 x.1 y.1 x.2 y.2

theorem filterMap_req_id_set {l : List TrackedCall} {i : Nat}
    {c : MethodCall} {s s' : Option RpcResult}
    (h : l[i]? = some (.req c s)) :
    (l.set i (.req c s')).filterMap TrackedCall.req_id =
      l.filterMap TrackedCall.req_id := by
  induction l generalizing i with
  | nil => cases h
  | cons hd tl ih =>
    cases i with
    | zero =>
      simp at h
      subst h
      simp [TrackedCall.req_id]
    | succ n =>
      simp at h
      simp only [List.set, List.filterMap_cons, ih h]

theorem applyFills_tracked_ids {b b₁ : BatchState}
    {fills : List (Nat × RpcResult)} (h : applyFills b fills = some b₁) :
    b₁.tracked_ids = b.tracked_ids := by
  induction fills generalizing b with
  | nil =>
    simp [applyFills] at h
    rw [h]
  | cons f fs ih =>
    rw [applyFills, List.foldl_cons] at h
    simp only [Option.some_bind] at h
    cases hset : b.set_response f.1 f.2 with
    | none =>
      rw [hset] at h
      have : ∀ l : List (Nat × RpcResult),
          l.foldl (fun ob g => ob.bind fun x => x.set_response g.1 g.2)
            (none : Option BatchState) = none := by
        intro l
        induction l with
        | nil => rfl
        | cons g gs ihg => simpa using ihg
      rw [this] at h
      cases h
    | some bmid =>
      rw [hset] at h
      have hmid : bmid.tracked_ids = b.tracked_ids := by
        obtain ⟨hlt, c, hc, hbm⟩ := set_response_spec hset
        rw [hbm, BatchState.tracked_ids, BatchState.tracked_ids]
        exact filterMap_req_id_set hc
      rw [← hmid]
      exact ih h

theorem outputs_map_out_id {l : List TrackedCall}
    (h : l.all TrackedCall.answered = true) :
    (l.filterMap TrackedCall.output).map Output.out_id =
      l.filterMap TrackedCall.req_id := by
  induction l with
  | nil => rfl
  | cons tc tl ih =>
    rw [List.all_cons, Bool.and_eq_true] at h
    obtain ⟨h1, h2⟩ := h
    cases tc with
    | notif n => simpa [TrackedCall.output, TrackedCall.req_id] using ih h2
    | req c s =>
      cases s with
      | none => simp [TrackedCall.answered] at h1
      | some r =>
        cases r <;>
          simp [TrackedCall.output, TrackedCall.req_id, Output.from_result,
            Output.out_id, ih h2]

theorem into_response_output_ids {b : BatchState} {resp : Response}
    (h : b.into_response = some (some resp)) :
    resp.output_ids = b.tracked_ids := by
  rw [BatchState.into_response] at h
  by_cases hr : b.is_ready_to_respond = true
  · rw [if_pos hr] at h
    have hans : b.calls.all TrackedCall.answered = true := by
      rw [BatchState.is_ready_to_respond, Bool.and_eq_true] at hr
      exact hr.2
    have hout : b.outputs.map Output.out_id = b.tracked_ids := by
      rw [BatchState.outputs, BatchState.tracked_ids]
      exact outputs_map_out_id hans
    simp only [Option.some.injEq] at h
    rw [BatchState.response_payload] at h
    cases hb : b.is_batch with
    | true =>
      rw [hb] at h
      cases houts : b.outputs with
      | nil => rw [houts] at h; cases h
      | cons o os =>
        rw [houts] at h
        simp only [Option.some.injEq] at h
        rw [← h, Response.output_ids, ← houts, hout]
    | false =>
      rw [hb] at h
      cases houts : b.outputs with
      | nil => rw [houts] at h; cases h
      | cons o os =>
        cases os with
        | nil =>
          rw [houts] at h
          simp only [Option.some.injEq] at h
          rw [← h]
          have : (Response.single o).output_ids = [o].map Output.out_id := rfl
          rw [this, ← houts, hout]
        | cons o2 os2 =>
          rw [houts] at h
          simp only [Option.some.injEq] at h
          rw [← h, Response.output_ids, ← houts, hout]
  · rw [if_neg hr] at h
    cases h

theorem from_request_tracked_ids (msg : Request) :
    (BatchState.from_request msg).tracked_ids = msg.request_ids := by
  cases msg with
  | single c =>
    cases c <;>
      simp [BatchState.from_request, BatchState.tracked_ids, trackCall,
        TrackedCall.req_id, Request.request_ids]
  | batch cs =>
    rw [BatchState.from_request, BatchState.tracked_ids,
      Request.request_ids]
    simp only [List.filterMap_map]
    congr 1
    funext c
    cases c <;> rfl

/-- Claim C5: The final assembled `Response` of a batch lists the requests'
outputs in the original relative order of the client message, independent
of the order in which results were filled: filling in any permuted order
yields the same tracker, fills never disturb the ordered request-id list,
the tracker built from a message carries the message's request ids in
original order (notifications contributing no entry), and the assembled
response lists its outputs exactly in that order. -/
theorem response_order_preserved (msg : Request) (b b₁ : BatchState)
    (fills fills' : List (Nat × RpcResult)) (resp : Response) :
    (fills.Perm fills' → applyFills b fills = applyFills b fills') ∧
      (applyFills b fills = some b₁ → b₁.tracked_ids = b.tracked_ids) ∧
      ((BatchState.from_request msg).tracked_ids = msg.request_ids) ∧
      (b.into_response = some (some resp) → resp.output_ids = b.tracked_ids) :=
  ⟨fun hp => applyFills_perm b hp, fun h => applyFills_tracked_ids h,
    from_request_tracked_ids msg, fun h => into_response_output_ids h⟩

theorem response_order_preserved_witness :
    ([((2 : Nat), RpcResult.ok (.val "b")), (0, .ok (.val "a"))].Perm
        [(0, .ok (.val "a")), (2, .ok (.val "b"))]) ∧
      (applyFills ⟨true, [.req ⟨.num 1, "m1", .none⟩ none, .notif ⟨"n", .none⟩,
          .req ⟨.num 2, "m2", .none⟩ none], 3⟩
          [(2, .ok (.val "b")), (0, .ok (.val "a"))] =
        applyFills ⟨true, [.req ⟨.num 1, "m1", .none⟩ none, .notif ⟨"n", .none⟩,
          .req ⟨.num 2, "m2", .none⟩ none], 3⟩
          [(0, .ok (.val "a")), (2, .ok (.val "b"))]) ∧
      (applyFills ⟨true, [.req ⟨.num 1, "m1", .none⟩ none, .notif ⟨"n", .none⟩,
          .req ⟨.num 2, "m2", .none⟩ none], 3⟩
          [(2, .ok (.val "b")), (0, .ok (.val "a"))] =
        some ⟨true, [.req ⟨.num 1, "m1", .none⟩ (some (.ok (.val "a"))),
          .notif ⟨"n", .none⟩,
          .req ⟨.num 2, "m2", .none⟩ (some (.ok (.val "b")))], 3⟩) ∧
      ((⟨true, [.req ⟨.num 1, "m1", .none⟩ (some (.ok (.val "a"))),
          .notif ⟨"n", .none⟩,
          .req ⟨.num 2, "m2", .none⟩ (some (.ok (.val "b")))], 3⟩ :
            BatchState).tracked_ids =
        (⟨true, [.req ⟨.num 1, "m1", .none⟩ none, .notif ⟨"n", .none⟩,
          .req ⟨.num 2, "m2", .none⟩ none], 3⟩ : BatchState).tracked_ids) ∧
      ((BatchState.from_request (.batch [.methodCall ⟨.num 1, "m1", .none⟩,
          .notification ⟨"n", .none⟩,
          .methodCall ⟨.num 2, "m2", .none⟩])).tracked_ids =
        (Request.batch [.methodCall ⟨.num 1, "m1", .none⟩,
          .notification ⟨"n", .none⟩,
          .methodCall ⟨.num 2, "m2", .none⟩]).request_ids) ∧
      ((⟨true, [.req ⟨.num 1, "m1", .none⟩ (some (.ok (.val "a"))),
          .notif ⟨"n", .none⟩,
          .req ⟨.num 2, "m2", .none⟩ (some (.ok (.val "b")))], 3⟩ :
            BatchState).into_response =
        some (some (.batch [.success (.val "a") (.num 1),
          .success (.val "b") (.num 2)]))) ∧
      ((Response.batch [.success (.val "a") (.num 1),
          .success (.val "b") (.num 2)]).output_ids =
        (⟨true, [.req ⟨.num 1, "m1", .none⟩ (some (.ok (.val "a"))),
          .notif ⟨"n", .none⟩,
          .req ⟨.num 2, "m2", .none⟩ (some (.ok (.val "b")))], 3⟩ :
            BatchState).tracked_ids) :=
  ⟨by decide,
    (response_order_preserved (.batch []) ⟨true,
      [.req ⟨.num 1, "m1", .none⟩ none, .notif ⟨"n", .none⟩,
        .req ⟨.num 2, "m2", .none⟩ none], 3⟩ ⟨true, [], 0⟩
      [(2, .ok (.val "b")), (0, .ok (.val "a"))]
      [(0, .ok (.val "a")), (2, .ok (.val "b"))] (.batch [])).1 (by decide),
    by decide,
    (response_order_preserved (.batch []) ⟨true,
      [.req ⟨.num 1, "m1", .none⟩ none, .notif ⟨"n", .none⟩,
        .req ⟨.num 2, "m2", .none⟩ none], 3⟩
      ⟨true, [.req ⟨.num 1, "m1", .none⟩ (some (.ok (.val "a"))),
        .notif ⟨"n", .none⟩,
        .req ⟨.num 2, "m2", .none⟩ (some (.ok (.val "b")))], 3⟩
      [(2, .ok (.val "b")), (0, .ok (.val "a"))] [] (.batch [])).2.1
      (by decide),
    (response_order_preserved (.batch [.methodCall ⟨.num 1, "m1", .none⟩,
      .notification ⟨"n", .none⟩, .methodCall ⟨.num 2, "m2", .none⟩])
      ⟨true, [], 0⟩ ⟨true, [], 0⟩ [] [] (.batch [])).2.2.1,
    by decide,
    (response_order_preserved (.batch [])
      ⟨true, [.req ⟨.num 1, "m1", .none⟩ (some (.ok (.val "a"))),
        .notif ⟨"n", .none⟩,
        .req ⟨.num 2, "m2", .none⟩ (some (.ok (.val "b")))], 3⟩
      ⟨true, [], 0⟩ [] []
      (.batch [.success (.val "a") (.num 1),
        .success (.val "b") (.num 2)])).2.2.2 (by decide)⟩

theorem run_events_notifs {T : Type} (ms front : List Notification)
    (nid t : Nat) (u : T) :
    BatchesState.run_events (ms.length + 1)
      ⟨nid, [(t, ⟨true, (front ++ ms).map TrackedCall.notif,
        front.length⟩, u)]⟩ =
      ms.map (fun n => some (.notification n u)) ++ [none] := by
  induction ms generalizing front with
  | nil =>
    have hc : ((front ++ ([] : List Notification)).map
        TrackedCall.notif)[front.length]? = none := by
      apply List.getElem?_eq_none
      simp
    have hnext : BatchState.next ⟨true, (front ++ ([] : List Notification)).map
        TrackedCall.notif, front.length⟩ =
        (none, ⟨true, (front ++ ([] : List Notification)).map
          TrackedCall.notif, front.length⟩) := by
      simp only [BatchState.next, hc]
    have hready : (⟨true, (front ++ ([] : List Notification)).map
        TrackedCall.notif, front.length⟩ : BatchState).is_ready_to_respond
        = true := by
      rw [BatchState.is_ready_to_respond]
      simp [TrackedCall.answered]
    have hpay : (⟨true, (front ++ ([] : List Notification)).map
        TrackedCall.notif, front.length⟩ : BatchState).response_payload
        = none := by
      have houts : (⟨true, (front ++ ([] : List Notification)).map
          TrackedCall.notif, front.length⟩ : BatchState).outputs = [] := by
        apply outputs_eq_nil_of_all_notif
        simp [TrackedCall.isNotif]
      rw [BatchState.response_payload, houts]
    have step0 : (⟨nid, [(t, ⟨true, (front ++ ([] : List Notification)).map
        TrackedCall.notif, front.length⟩, u)]⟩ : BatchesState T).next_event =
        (none, ⟨nid, []⟩) := by
      simp only [BatchesState.next_event, nextEventAux, hnext, hready, hpay,
        eq_self_iff_true, if_true]
    show BatchesState.run_events (0 + 1) _ = _
    rw [Nat.zero_add, BatchesState.run_events, step0]
    rfl
  | cons m ms ih =>
    have hc : ((front ++ m :: ms).map
        TrackedCall.notif)[front.length]? = some (.notif m) := by
      rw [List.getElem?_map]
      rw [List.getElem?_append_right (by omega)]
      simp
    have hnext : BatchState.next ⟨true, (front ++ m :: ms).map
        TrackedCall.notif, front.length⟩ =
        (some (.notification m), ⟨true, (front ++ m :: ms).map
          TrackedCall.notif, front.length + 1⟩) := by
      simp only [BatchState.next, hc]
    have step : (⟨nid, [(t, ⟨true, (front ++ m :: ms).map TrackedCall.notif,
        front.length⟩, u)]⟩ : BatchesState T).next_event =
        (some (.notification m u),
          ⟨nid, [(t, ⟨true, (front ++ m :: ms).map TrackedCall.notif,
            front.length + 1⟩, u)]⟩) := by
      simp only [BatchesState.next_event, nextEventAux, hnext]
    have hrw : (front ++ m :: ms) = (front ++ [m]) ++ ms := by
      simp
    have hlen : front.length + 1 = (front ++ [m]).length := by
      simp
    have tail : BatchesState.run_events (ms.length + 1)
        ⟨nid, [(t, ⟨true, (front ++ m :: ms).map TrackedCall.notif,
          front.length + 1⟩, u)]⟩ =
        ms.map (fun n => some (.notification n u)) ++ [none] := by
      rw [hrw, hlen]
      exact ih (front ++ [m])
    show BatchesState.run_events ((ms.length + 1) + 1) _ = _
    rw [BatchesState.run_events, step]
    exact congrArg (fun l => some (BatchesEvent.notification m u) :: l) tail

/-- Claim C6: A message of `N` notifications yields exactly `N` notification
events, one per `next_event` call, in original position order, each
carrying that batch's user context, and then no further event: the trace
of `N + 1` calls is the `N` notifications followed by `none`, so a yielded
notification is handed over by value and never yielded again. -/
theorem all_notifs_trace {T : Type} (ns : List Notification) (nid t : Nat)
    (u : T) :
    BatchesState.run_events (ns.length + 1)
      ⟨nid, [(t, BatchState.from_request (.batch (ns.map .notification)),
        u)]⟩ =
      ns.map (fun n => some (.notification n u)) ++ [none] := by
  have hcalls : (ns.map Call.notification).map trackCall =
      ns.map TrackedCall.notif := by
    rw [List.map_map]
    rfl
  have h0 : BatchState.from_request (.batch (ns.map .notification)) =
      ⟨true, (([] : List Notification) ++ ns).map TrackedCall.notif,
        ([] : List Notification).length⟩ := by
    rw [BatchState.from_request, hcalls]
    simp
  rw [h0]
  exact run_events_notifs ns [] nid t u

theorem nextEventAux_frame {T : Type} (l : List (Nat × BatchState × T))
    (ev : BatchesEvent T) (h : (nextEventAux l).1 = some ev)
    (hadv : ev.advances) :
    ∃ l₁ id b u l₂, l = l₁ ++ (id, b, u) :: l₂ ∧
      b.cursor < b.calls.length ∧
      (nextEventAux l).2 =
        (l₁.filter fun e => !e.2.1.is_ready_to_respond) ++
          (id, { b with cursor := b.cursor + 1 }, u) :: l₂ := by
  induction l with
  | nil => simp [nextEventAux] at h
  | cons e rest ih =>
    obtain ⟨id, b, u⟩ := e
    cases hc : b.calls[b.cursor]? with
    | some tc =>
      have hlt : b.cursor < b.calls.length := by
        by_contra hx
        push_neg at hx
        rw [List.getElem?_eq_none hx] at hc
        cases hc
      cases tc with
      | notif n =>
        refine ⟨[], id, b, u, rest, rfl, hlt, ?_⟩
        simp only [nextEventAux, BatchState.next, hc, List.filter_nil,
          List.nil_append]
      | req c s0 =>
        refine ⟨[], id, b, u, rest, rfl, hlt, ?_⟩
        simp only [nextEventAux, BatchState.next, hc, List.filter_nil,
          List.nil_append]
    | none =>
      cases hr : b.is_ready_to_respond with
      | true =>
        cases hp : b.response_payload with
        | some resp =>
          have : (nextEventAux ((id, b, u) :: rest)).1 =
              some (.readyToSend resp u) := by
            simp only [nextEventAux, BatchState.next, hc, hr, hp,
              eq_self_iff_true, if_true]
          rw [this] at h
          cases h
          cases hadv
        | none =>
          have hred : nextEventAux ((id, b, u) :: rest) =
              nextEventAux rest := by
            simp only [nextEventAux, BatchState.next, hc, hr, hp,
              eq_self_iff_true, if_true]
          rw [hred] at h
          obtain ⟨l₁, id', b', u', l₂, hl, hlt, hres⟩ := ih h
          refine ⟨(id, b, u) :: l₁, id', b', u', l₂, by rw [hl]; rfl,
            hlt, ?_⟩
          rw [hred, hres, List.filter_cons]
          simp [hr]
      | false =>
        have hred : nextEventAux ((id, b, u) :: rest) =
            ((nextEventAux rest).1, (id, b, u) :: (nextEventAux rest).2) := by
          simp only [nextEventAux, BatchState.next, hc, hr]
          simp
        rw [hred] at h
        obtain ⟨l₁, id', b', u', l₂, hl, hlt, hres⟩ := ih h
        refine ⟨(id, b, u) :: l₁, id', b', u', l₂, by rw [hl]; rfl,
          hlt, ?_⟩
        rw [hred]
        simp only [List.filter_cons, hr, Bool.not_false, if_true]
        rw [hres]
        rfl

/-- Claim C9: A `next_event` call that returns a notification or request
event advances exactly one batch's cursor by one position and changes
nothing else about it; every batch scanned before it survives unchanged
unless it was ready to respond (with no payload — those are removed), and
every batch after it is completely untouched. -/
theorem next_event_frame {T : Type} (s : BatchesState T)
    (ev : BatchesEvent T) (h : (s.next_event).1 = some ev)
    (hadv : ev.advances) :
    ∃ l₁ id b u l₂, s.batches = l₁ ++ (id, b, u) :: l₂ ∧
      b.cursor < b.calls.length ∧
      (s.next_event).2.batches =
        (l₁.filter fun e => !e.2.1.is_ready_to_respond) ++
          (id, { b with cursor := b.cursor + 1 }, u) :: l₂ :=
  nextEventAux_frame s.batches ev h hadv

theorem next_event_frame_witness :
    (((⟨1, [(0, ⟨true, [.notif ⟨"n", .none⟩], 0⟩, (4 : Nat))]⟩ :
        BatchesState Nat).next_event).1 =
      some (.notification ⟨"n", .none⟩ 4)) ∧
      (BatchesEvent.advances
        (.notification (⟨"n", .none⟩ : Notification) (4 : Nat))) ∧
      (∃ l₁ id b u l₂,
        (⟨1, [(0, ⟨true, [.notif ⟨"n", .none⟩], 0⟩, (4 : Nat))]⟩ :
          BatchesState Nat).batches = l₁ ++ (id, b, u) :: l₂ ∧
        b.cursor < b.calls.length ∧
        ((⟨1, [(0, ⟨true, [.notif ⟨"n", .none⟩], 0⟩, 4)]⟩ :
          BatchesState Nat).next_event).2.batches =
          (l₁.filter fun e => !e.2.1.is_ready_to_respond) ++
            (id, { b with cursor := b.cursor + 1 }, u) :: l₂) :=
  ⟨by decide, trivial,
    next_event_frame ⟨1, [(0, ⟨true, [.notif ⟨"n", .none⟩], 0⟩, 4)]⟩
      (.notification ⟨"n", .none⟩ 4) (by decide) trivial⟩

theorem u64Size_pos : 0 < u64Size := by decide

theorem hasKey_eq_false_iff {T : Type} (l : List (Nat × BatchState × T))
    (k : Nat) : hasKey l k = false ↔ k ∉ l.map Prod.fst := by
  constructor
  · intro h hk
    obtain ⟨e, he, hfst⟩ := List.mem_map.mp hk
    have hany : l.any (fun e => e.1 == k) = true :=
      List.any_eq_true.mpr ⟨e, he, by rw [beq_iff_eq]; exact hfst⟩
    rw [hasKey] at h
    rw [h] at hany
    cases hany
  · intro h
    rw [hasKey]
    cases hany : l.any (fun e => e.1 == k) with
    | false => rfl
    | true =>
      obtain ⟨e, he, heq⟩ := List.any_eq_true.mp hany
      rw [beq_iff_eq] at heq
      exact absurd (List.mem_map.mpr ⟨e, he, heq⟩) h

theorem injectAux_spec {T : Type} (fuel : Nat) :
    ∀ (s : BatchesState T) (b : BatchState) (u : T) (s' : BatchesState T),
      BatchesState.injectAux fuel s b u = some s' →
      s.next_batch_id < u64Size →
      ∃ k, k < u64Size ∧ hasKey s.batches k = false ∧
        s'.batches = s.batches ++ [(k, b, u)] ∧
        s'.next_batch_id = (k + 1) % u64Size := by
  induction fuel with
  | zero =>
    intro s b u s' h _
    simp [BatchesState.injectAux] at h
  | succ fuel ih =>
    intro s b u s' h hnid
    simp only [BatchesState.injectAux] at h
    split at h
    · rename_i hk
      obtain ⟨k, h1, h2, h3, h4⟩ :=
        ih ⟨(s.next_batch_id + 1) % u64Size, s.batches⟩ b u s' h
          (Nat.mod_lt _ u64Size_pos)
      exact ⟨k, h1, h2, h3, h4⟩
    · rename_i hk
      rw [Option.some.injEq] at h
      refine ⟨s.next_batch_id, hnid, Bool.eq_false_iff.mpr hk, ?_, ?_⟩
      · rw [← h]
      · rw [← h]

theorem injectAux_succeeds {T : Type} (fuel : Nat) :
    ∀ (s : BatchesState T) (b : BatchState) (u : T),
      s.next_batch_id < u64Size →
      (∃ k, k < fuel ∧
        hasKey s.batches ((s.next_batch_id + k) % u64Size) = false) →
      (BatchesState.injectAux fuel s b u).isSome = true := by
  induction fuel with
  | zero =>
    rintro s b u _ ⟨k, hk, _⟩
    omega
  | succ fuel ih =>
    rintro s b u hnid ⟨k, hkf, hfree⟩
    simp only [BatchesState.injectAux]
    split
    · rename_i hk
      have hk0 : k ≠ 0 := by
        intro h0
        subst h0
        rw [Nat.add_zero, Nat.mod_eq_of_lt hnid] at hfree
        rw [hfree] at hk
        cases hk
      obtain ⟨k', rfl⟩ : ∃ k', k = k' + 1 := ⟨k - 1, by omega⟩
      apply ih ⟨(s.next_batch_id + 1) % u64Size, s.batches⟩ b u
        (Nat.mod_lt _ u64Size_pos)
      refine ⟨k', by omega, ?_⟩
      have harith : ((s.next_batch_id + 1) % u64Size + k') % u64Size =
          (s.next_batch_id + (k' + 1)) % u64Size := by
        rw [Nat.mod_add_mod]
        congr 1
        omega
      rw [harith]
      exact hfree
    · simp

theorem free_ticket_exists (keys : List Nat) (start : Nat)
    (hnd : keys.Nodup) (hlen : keys.length < u64Size)
    (hstart : start < u64Size) :
    ∃ k, k < u64Size ∧ ((start + k) % u64Size) ∉ keys := by
  have hfree : ∃ r, r < u64Size ∧ r ∉ keys := by
    by_contra hx
    push_neg at hx
    have hsub : Finset.range u64Size ⊆ keys.toFinset := by
      intro r hr
      rw [List.mem_toFinset]
      exact hx r (Finset.mem_range.mp hr)
    have hcard := Finset.card_le_card hsub
    rw [Finset.card_range] at hcard
    have htf : keys.toFinset.card = keys.length :=
      List.toFinset_card_of_nodup hnd
    omega
  obtain ⟨r, hr, hrn⟩ := hfree
  refine ⟨(u64Size + r - start) % u64Size, Nat.mod_lt _ u64Size_pos, ?_⟩
  have harith : (start + (u64Size + r - start) % u64Size) % u64Size = r := by
    rw [Nat.add_mod_mod]
    have he : start + (u64Size + r - start) = u64Size + r := by omega
    rw [he, Nat.add_mod_left, Nat.mod_eq_of_lt hr]
  rw [harith]
  exact hrn

theorem inject_spec {T : Type} (s : BatchesState T) (r : Request) (u : T)
    (hwf : s.WF) (hlen : s.batches.length < u64Size) :
    ∃ s' k, s.inject r u = some s' ∧ k < u64Size ∧
      hasKey s.batches k = false ∧
      s'.batches = s.batches ++ [(k, BatchState.from_request r, u)] ∧
      s'.next_batch_id = (k + 1) % u64Size := by
  obtain ⟨hnd, hent, hnid⟩ := hwf
  have hfree : ∃ k, k < u64Size ∧
      hasKey s.batches ((s.next_batch_id + k) % u64Size) = false := by
    obtain ⟨k, hk1, hk2⟩ := free_ticket_exists (s.batches.map Prod.fst)
      s.next_batch_id hnd (by rwa [List.length_map]) hnid
    exact ⟨k, hk1, (hasKey_eq_false_iff _ _).mpr hk2⟩
  have hsome := injectAux_succeeds u64Size s (BatchState.from_request r) u
    hnid hfree
  cases hres : BatchesState.injectAux u64Size s
      (BatchState.from_request r) u with
  | none =>
    rw [hres] at hsome
    cases hsome
  | some s' =>
    obtain ⟨k, h1, h2, h3, h4⟩ := injectAux_spec u64Size s _ u s' hres hnid
    exact ⟨s', k, by rw [BatchesState.inject, hres], h1, h2, h3, h4⟩

theorem trackCall_not_filled (cs : List Call) (i : Nat) (c : MethodCall)
    (rr : RpcResult) :
    (cs.map trackCall)[i]? = some (.req c (some rr)) → False := by
  intro h
  rw [List.getElem?_map] at h
  cases hc : cs[i]? with
  | none =>
    rw [hc] at h
    cases h
  | some c0 =>
    rw [hc] at h
    cases c0 <;> simp [trackCall] at h

theorem from_request_filledBelow (r : Request) :
    filledBelowCursor (BatchState.from_request r) := by
  intro i c rr h
  cases r with
  | single c0 => exact (trackCall_not_filled [c0] i c rr h).elim
  | batch cs => exact (trackCall_not_filled cs i c rr h).elim

theorem WF_inject {T : Type} {s s' : BatchesState T} {r : Request} {u : T}
    (hwf : s.WF) (h : s.inject r u = some s') : s'.WF := by
  obtain ⟨hnd, hent, hnid⟩ := hwf
  rw [BatchesState.inject] at h
  obtain ⟨k, hk1, hk2, hk3, hk4⟩ := injectAux_spec u64Size s _ u s' h hnid
  refine ⟨?_, ?_, ?_⟩
  · rw [hk3, List.map_append]
    refine List.Nodup.append hnd (List.nodup_singleton _) ?_
    intro a ha hb
    have hak : a = k := by simpa using hb
    subst hak
    exact (hasKey_eq_false_iff _ _).mp hk2 ha
  · intro e he
    rw [hk3] at he
    rcases List.mem_append.mp he with h1 | h2
    · exact hent e h1
    · rw [List.mem_singleton] at h2
      subst h2
      exact ⟨hk1, from_request_filledBelow r⟩
  · rw [hk4]
    exact Nat.mod_lt _ u64Size_pos

theorem nextEventAux_fst_sublist {T : Type}
    (l : List (Nat × BatchState × T)) :
    ((nextEventAux l).2.map Prod.fst).Sublist (l.map Prod.fst) := by
  induction l with
  | nil => simp [nextEventAux]
  | cons e rest ih =>
    obtain ⟨id, b, u⟩ := e
    cases hc : b.calls[b.cursor]? with
    | some tc =>
      cases tc with
      | notif n =>
        simp only [nextEventAux, BatchState.next, hc, List.map_cons]
        exact List.Sublist.refl _
      | req c s0 =>
        simp only [nextEventAux, BatchState.next, hc, List.map_cons]
        exact List.Sublist.refl _
    | none =>
      cases hr : b.is_ready_to_respond with
      | true =>
        cases hp : b.response_payload with
        | some resp =>
          simp only [nextEventAux, BatchState.next, hc, hr, hp,
            eq_self_iff_true, if_true, List.map_cons]
          exact List.sublist_cons_self _ _
        | none =>
          simp only [nextEventAux, BatchState.next, hc, hr, hp,
            eq_self_iff_true, if_true, List.map_cons]
          exact ih.trans (List.sublist_cons_self _ _)
      | false =>
        simp only [nextEventAux, BatchState.next, hc, hr,
          Bool.false_eq_true, if_false, List.map_cons]
        exact ih.cons₂ _

theorem nextEventAux_entries {T : Type} (l : List (Nat × BatchState × T)) :
    ∀ e' ∈ (nextEventAux l).2, ∃ b, (e'.1, b, e'.2.2) ∈ l ∧
      e'.2.1.calls = b.calls ∧ b.cursor ≤ e'.2.1.cursor := by
  induction l with
  | nil =>
    intro e' he'
    simp [nextEventAux] at he'
  | cons e rest ih =>
    obtain ⟨id, b, u⟩ := e
    intro e' he'
    cases hc : b.calls[b.cursor]? with
    | some tc =>
      have hred : (nextEventAux ((id, b, u) :: rest)).2 =
          (id, { b with cursor := b.cursor + 1 }, u) :: rest := by
        cases tc <;> simp only [nextEventAux, BatchState.next, hc]
      rw [hred] at he'
      rcases List.mem_cons.mp he' with h1 | h2
      · subst h1
        exact ⟨b, List.mem_cons_self _ _, rfl, Nat.le_succ _⟩
      · exact ⟨e'.2.1, List.mem_cons_of_mem _ h2, rfl, le_refl _⟩
    | none =>
      cases hr : b.is_ready_to_respond with
      | true =>
        cases hp : b.response_payload with
        | some resp =>
          have hred : (nextEventAux ((id, b, u) :: rest)).2 = rest := by
            simp only [nextEventAux, BatchState.next, hc, hr, hp,
              eq_self_iff_true, if_true]
          rw [hred] at he'
          exact ⟨e'.2.1, List.mem_cons_of_mem _ he', rfl, le_refl _⟩
        | none =>
          have hred : (nextEventAux ((id, b, u) :: rest)).2 =
              (nextEventAux rest).2 := by
            simp only [nextEventAux, BatchState.next, hc, hr, hp,
              eq_self_iff_true, if_true]
          rw [hred] at he'
          obtain ⟨b0, hb0, hcalls, hcur⟩ := ih e' he'
          exact ⟨b0, List.mem_cons_of_mem _ hb0, hcalls, hcur⟩
      | false =>
        have hred : (nextEventAux ((id, b, u) :: rest)).2 =
            (id, b, u) :: (nextEventAux rest).2 := by
          simp only [nextEventAux, BatchState.next, hc, hr,
            Bool.false_eq_true, if_false]
        rw [hred] at he'
        rcases List.mem_cons.mp he' with h1 | h2
        · subst h1
          exact ⟨b, List.mem_cons_self _ _, rfl, le_refl _⟩
        · obtain ⟨b0, hb0, hcalls, hcur⟩ := ih e' h2
          exact ⟨b0, List.mem_cons_of_mem _ hb0, hcalls, hcur⟩

theorem WF_next_event {T : Type} {s : BatchesState T} (hwf : s.WF) :
    (s.next_event).2.WF := by
  obtain ⟨hnd, hent, hnid⟩ := hwf
  refine ⟨?_, ?_, hnid⟩
  · exact (nextEventAux_fst_sublist s.batches).nodup hnd
  · intro e' he'
    obtain ⟨b0, hmem, hcalls, hcur⟩ := nextEventAux_entries s.batches e' he'
    obtain ⟨hklt, hfb⟩ := hent _ hmem
    refine ⟨hklt, ?_⟩
    intro i c rr hi
    rw [hcalls] at hi
    exact lt_of_lt_of_le (hfb i c rr hi) hcur

theorem updateBatch_entries {T : Type} {l l' : List (Nat × BatchState × T)}
    {k : Nat} {f : BatchState → Option BatchState}
    (h : updateBatch l k f = some l') :
    l'.map Prod.fst = l.map Prod.fst ∧
      ∀ e' ∈ l', ∃ b, (e'.1, b, e'.2.2) ∈ l ∧
        (e'.2.1 = b ∨ f b = some e'.2.1) := by
  induction l generalizing l' with
  | nil => simp [updateBatch] at h
  | cons e rest ih =>
    obtain ⟨id, b0, u0⟩ := e
    by_cases hk : id = k
    · subst hk
      simp [updateBatch] at h
      cases hf : f b0 with
      | none =>
        rw [hf] at h
        simp at h
      | some b' =>
        rw [hf] at h
        simp at h
        refine ⟨by rw [← h]; simp, ?_⟩
        intro e' he'
        rw [← h] at he'
        rcases List.mem_cons.mp he' with h1 | h2
        · subst h1
          exact ⟨b0, List.mem_cons_self _ _, Or.inr hf⟩
        · exact ⟨e'.2.1, List.mem_cons_of_mem _ h2, Or.inl rfl⟩
    · simp [updateBatch, hk] at h
      cases hrest : updateBatch rest k f with
      | none =>
        rw [hrest] at h
        simp at h
      | some rest' =>
        rw [hrest] at h
        simp at h
        obtain ⟨hmap, hents⟩ := ih hrest
        refine ⟨by rw [← h]; simp [hmap], ?_⟩
        intro e' he'
        rw [← h] at he'
        rcases List.mem_cons.mp he' with h1 | h2
        · subst h1
          exact ⟨b0, List.mem_cons_self _ _, Or.inl rfl⟩
        · obtain ⟨b, hb, hor⟩ := hents e' h2
          exact ⟨b, List.mem_cons_of_mem _ hb, hor⟩

theorem filledBelow_set_response {b b' : BatchState} {i : Nat}
    {r : RpcResult} (h : b.set_response i r = some b')
    (hfb : filledBelowCursor b) : filledBelowCursor b' := by
  obtain ⟨hlt, c, hc, hb'⟩ := set_response_spec h
  subst hb'
  intro j c' r' hj
  have hj' : (b.calls.set i (TrackedCall.req c (some r)))[j]? =
      some (.req c' (some r')) := hj
  show j < b.cursor
  by_cases hij : j = i
  · subst hij
    exact hlt
  · rw [List.getElem?_set_ne (Ne.symm hij)] at hj'
    exact hfb j c' r' hj'

theorem WF_answer {T : Type} {s s' : BatchesState T} {id : BatchesElemId}
    {r : RpcResult} (hwf : s.WF) (h : s.answer id r = some s') : s'.WF := by
  obtain ⟨hnd, hent, hnid⟩ := hwf
  rw [BatchesState.answer] at h
  cases hup : updateBatch s.batches id.outer
      (fun b => b.set_response id.inner r) with
  | none =>
    rw [hup] at h
    simp at h
  | some l' =>
    rw [hup] at h
    simp at h
    obtain ⟨hmap, hents⟩ := updateBatch_entries hup
    have hbatches : s'.batches = l' := by rw [← h]
    refine ⟨?_, ?_, ?_⟩
    · rw [hbatches, hmap]
      exact hnd
    · intro e' he'
      rw [hbatches] at he'
      obtain ⟨b, hb, hor⟩ := hents e' he'
      obtain ⟨hklt, hfb⟩ := hent _ hb
      refine ⟨hklt, ?_⟩
      rcases hor with h1 | h2
      · rw [h1]
        exact hfb
      · exact filledBelow_set_response h2 hfb
    · rw [← h]
      exact hnid

theorem Reach_WF {T : Type} {s : BatchesState T} (h : Reach s) : s.WF := by
  induction h with
  | new =>
    refine ⟨List.nodup_nil, ?_, ?_⟩
    · intro e he
      cases he
    · show (0 : Nat) < u64Size
      decide
  | inject s s' r u hr hinj ih => exact WF_inject ih hinj
  | next_event s hr ih => exact WF_next_event ih
  | answer s s' id r hr hans ih => exact WF_answer ih hans

/-- Claim C1: Live-ticket uniqueness: in every reachable registry state the
live tickets are pairwise distinct, and `inject` always stores the new
batch under a ticket that is not currently in use (the wraparound probe
skips live tickets), so the set of live tickets never contains a
duplicate. -/
theorem live_tickets_unique {T : Type} (s : BatchesState T)
    (h : Reach s) :
    (s.batches.map Prod.fst).Nodup ∧
      ∀ r u s', s.inject r u = some s' →
        ∃ k, hasKey s.batches k = false ∧
          s'.batches = s.batches ++ [(k, BatchState.from_request r, u)] ∧
          (s'.batches.map Prod.fst).Nodup := by
  have hwf := Reach_WF h
  refine ⟨hwf.1, ?_⟩
  intro r u s' hinj
  have hwf' := Reach_WF (Reach.inject s s' r u h hinj)
  rw [BatchesState.inject] at hinj
  obtain ⟨k, hk1, hk2, hk3, _⟩ :=
    injectAux_spec u64Size s _ u s' hinj hwf.2.2
  exact ⟨k, hk2, hk3, hwf'.1⟩

theorem live_tickets_unique_witness :
    Reach (BatchesState.new : BatchesState Nat) ∧
      (((BatchesState.new : BatchesState Nat).batches.map Prod.fst).Nodup ∧
        ∀ r u s',
          (BatchesState.new : BatchesState Nat).inject r u = some s' →
          ∃ k, hasKey (BatchesState.new : BatchesState Nat).batches k
              = false ∧
            s'.batches = (BatchesState.new : BatchesState Nat).batches ++
              [(k, BatchState.from_request r, u)] ∧
            (s'.batches.map Prod.fst).Nodup) :=
  ⟨Reach.new, live_tickets_unique (BatchesState.new : BatchesState Nat) Reach.new⟩

theorem nextEventPanicsAux_false {T : Type}
    (l : List (Nat × BatchState × T))
    (hfb : ∀ e ∈ l, filledBelowCursor e.2.1) :
    nextEventPanicsAux l = false := by
  induction l with
  | nil => rfl
  | cons e rest ih =>
    obtain ⟨id, b, u⟩ := e
    have hfbh : filledBelowCursor b := hfb _ (List.mem_cons_self _ _)
    have hfbr : ∀ e ∈ rest, filledBelowCursor e.2.1 :=
      fun e he => hfb e (List.mem_cons_of_mem _ he)
    cases hc : b.calls[b.cursor]? with
    | some tc =>
      cases tc with
      | notif n => simp only [nextEventPanicsAux, BatchState.next, hc]
      | req c s0 =>
        have hs0 : s0 = none := by
          cases s0 with
          | none => rfl
          | some r0 => exact absurd (hfbh b.cursor c r0 hc) (lt_irrefl _)
        subst hs0
        have hreq : BatchState.request_by_id
            { b with cursor := b.cursor + 1 } b.cursor = some c := by
          simp [BatchState.request_by_id, hc, Nat.lt_succ_self]
        simp only [nextEventPanicsAux, BatchState.next, hc, hreq,
          Option.isSome_some, Bool.not_true]
    | none =>
      have hir : b.into_response =
          if b.is_ready_to_respond then some b.response_payload
          else none := rfl
      cases hr : b.is_ready_to_respond with
      | true =>
        rw [hr] at hir
        simp only [if_true] at hir
        cases hp : b.response_payload with
        | some resp =>
          rw [hp] at hir
          simp only [nextEventPanicsAux, BatchState.next, hc, hr, hir,
            eq_self_iff_true, if_true]
        | none =>
          rw [hp] at hir
          simp only [nextEventPanicsAux, BatchState.next, hc, hr, hir,
            eq_self_iff_true, if_true]
          exact ih hfbr
      | false =>
        simp only [nextEventPanicsAux, BatchState.next, hc, hr,
          Bool.false_eq_true, if_false]
        exact ih hfbr

/-- Claim C7: No sequence of public-interface calls ever panics the
registry: in every reachable state, the internal `expect`/`unwrap`/`panic`
branches of the `next_event` scan (the `into_response` unwrap and the
`request_by_id(id).unwrap()` after a request is yielded) are unreachable.
`request_by_id` itself contains no panicking branch. -/
theorem next_event_no_panic {T : Type} (s : BatchesState T)
    (h : Reach s) : s.next_event_panics = false :=
  nextEventPanicsAux_false s.batches
    (fun e he => ((Reach_WF h).2.1 e he).2)

theorem next_event_no_panic_witness :
    Reach (BatchesState.new : BatchesState Nat) ∧
      (BatchesState.new : BatchesState Nat).next_event_panics = false :=
  ⟨Reach.new, next_event_no_panic (BatchesState.new : BatchesState Nat) Reach.new⟩

/-- Claim C8: `inject` always terminates and inserts exactly one new batch:
in every reachable registry state with fewer than `2 ^ 64` live batches,
the ticket-probing loop finds a vacant ticket (within `2 ^ 64` probes),
and on termination the number of open batches has increased by exactly
one. -/
theorem inject_total {T : Type} (s : BatchesState T) (r : Request) (u : T)
    (hs : Reach s) (hlen : s.batches.length < u64Size) :
    ∃ s', s.inject r u = some s' ∧
      s'.batches.length = s.batches.length + 1 := by
  obtain ⟨s', k, h1, _, _, h4, _⟩ := inject_spec s r u (Reach_WF hs) hlen
  refine ⟨s', h1, ?_⟩
  rw [h4, List.length_append, List.length_singleton]

theorem inject_total_witness :
    Reach (BatchesState.new : BatchesState Nat) ∧
      (BatchesState.new : BatchesState Nat).batches.length < u64Size ∧
      ∃ s', (BatchesState.new : BatchesState Nat).inject (.batch []) 0
          = some s' ∧
        s'.batches.length =
          (BatchesState.new : BatchesState Nat).batches.length + 1 :=
  ⟨Reach.new, by decide,
    inject_total (BatchesState.new : BatchesState Nat) (.batch []) 0
      Reach.new (by decide)⟩

/-- Claim C10: The registry is deterministic: the embedding of the map is a
pure function of the insertion history (the Rust map uses the fixed-seed
FNV hasher, with no per-instance randomness), so two fresh `BatchesState`
instances driven by the same operation sequence return identical
observable results. -/
theorem registry_deterministic {T : Type} (ops : List (Op T))
    (s₁ s₂ : BatchesState T) (h₁ : s₁ = BatchesState.new)
    (h₂ : s₂ = BatchesState.new) :
    s₁.run ops = s₂.run ops := by
  subst h₁
  subst h₂
  rfl

theorem registry_deterministic_witness :
    ((BatchesState.new : BatchesState Nat) = BatchesState.new) ∧
      (BatchesState.new : BatchesState Nat).run
          [.inject (.batch []) 0, .next_event] =
        (BatchesState.new : BatchesState Nat).run
          [.inject (.batch []) 0, .next_event] :=
  ⟨rfl, registry_deterministic [.inject (.batch []) 0, .next_event]
    (BatchesState.new : BatchesState Nat) BatchesState.new rfl rfl⟩

end Jsonrpsee
